import Mathlib

/-!
Verification of the run-vm QMP protocol engine.

The repository has two engines for the same line-delimited JSON control
protocol over the stdin/stdout of a child process:
  - src/qemu.rs: a worker-based engine (`qemu_worker`) multiplexing a client
    command queue against the wire with a single outstanding reply slot;
  - src/main.rs: an inline `mod qemu` engine whose `Process::write` reads the
    wire synchronously, caching event lines until a reply line arrives.
We embed both engines over a model of the `json` crate value type and prove
the ordering, routing, back-pressure and lifecycle properties of the spec.
-/

namespace RunVM

/-- Model of the `json` crate JsonValue: an arbitrary JSON tree. Numbers are
modelled as integers (the fields the program reads are version integers). -/
inductive Json where
  | null
  | bool (b : Bool)
  | num (n : Int)
  | str (s : String)
  | arr (elems : List Json)
  | obj (fields : List (String × Json))

/-- First value bound to a key in an object field list, if present. -/
def Json.getEntry : List (String × Json) → String → Option Json
  | [], _ => none
  | (k, v) :: rest, key => if k = key then some v else Json.getEntry rest key

/-- Model of the `json` crate Index: `json["key"]` gives Null when the value
is not an object or the key is absent. -/
def Json.get (j : Json) (key : String) : Json :=
  match j with
  | .obj fields => (Json.getEntry fields key).getD .null
  | _ => .null

/-- Model of `JsonValue::has_key`: true only for objects carrying the key. -/
def Json.hasKey (j : Json) (key : String) : Bool :=
  match j with
  | .obj fields => (Json.getEntry fields key).isSome
  | _ => false

/-- Escaping of one character in a JSON string, as the `json` crate dump
writes it. -/
def escapeChar (c : Char) : String :=
  if c = '"' then "\\\""
  else if c = '\\' then "\\\\"
  else if c = '\n' then "\\n"
  else if c = '\r' then "\\r"
  else if c = '\t' then "\\t"
  else String.singleton c

/-- Escaping of a JSON string body. -/
def escapeString (s : String) : String := String.join (s.toList.map escapeChar)

mutual

/-- Model of the `json` crate compact Display (`data.to_string()` in both
engines): single line, no spaces, fields in order. It never emits a raw
newline (newlines inside strings are escaped). -/
def Json.serialize : Json → String
  | .null => "null"
  | .bool b => cond b "true" "false"
  | .num n => toString n
  | .str s => "\"" ++ escapeString s ++ "\""
  | .arr elems => "[" ++ Json.serializeElems elems ++ "]"
  | .obj fields => "\x7b" ++ Json.serializeFields fields ++ "\x7d"

/-- Comma-separated serialization of array elements. -/
def Json.serializeElems : List Json → String
  | [] => ""
  | [x] => Json.serialize x
  | x :: rest => Json.serialize x ++ "," ++ Json.serializeElems rest

/-- Comma-separated serialization of object fields. -/
def Json.serializeFields : List (String × Json) → String
  | [] => ""
  | [(k, v)] => "\"" ++ escapeString k ++ "\":" ++ Json.serialize v
  | (k, v) :: rest =>
      "\"" ++ escapeString k ++ "\":" ++ Json.serialize v ++ "," ++
        Json.serializeFields rest

end

/-- Model of `JsonValue::as_u8`: the value must be a number that fits an
unsigned 8-bit integer; anything else (absent field read as Null, string,
negative, or a value above 255) gives `none`. -/
def Json.as_u8 (j : Json) : Option Nat :=
  match j with
  | .num n => if 0 ≤ n ∧ n ≤ 255 then some n.toNat else none
  | _ => none

/-- `struct Version(u8, u8, u8)`, identical in src/qemu.rs and src/main.rs. -/
structure Version where
  major : Nat
  minor : Nat
  micro : Nat
deriving DecidableEq

/-- `Version::from_json`: reads `json["major"]`, `json["minor"]`,
`json["micro"]` with `as_u8().unwrap()`. The unwrap panic on a missing or
out-of-range field is modelled as `none`. -/
def Version.from_json (json : Json) : Option Version :=
  match (json.get "major").as_u8, (json.get "minor").as_u8,
      (json.get "micro").as_u8 with
  | some a, some b, some c => some ⟨a, b, c⟩
  | _, _, _ => none

/-- `pub struct Eof;` — the channel-closed error value. -/
inductive Eof where
  | mk
deriving DecidableEq

/-- Outcome of the greeting phase of `Process::init` (identical in both
files): end-of-stream before the greeting is `Err(Eof)`; a greeting whose
version fields do not validate makes `Version::from_json` panic (fatal);
otherwise init proceeds with the parsed version. -/
inductive InitOutcome where
  | eofBeforeGreeting
  | handshakePanic
  | proceed (v : Version)
deriving DecidableEq

/-- Greeting phase of `Process::init`: `read_line` returning no line gives
`Err(Eof)`; otherwise the version is taken from
`json["QMP"]["version"]["qemu"]` by `Version::from_json`. -/
def initGreeting : Option Json → InitOutcome
  | none => .eofBeforeGreeting
  | some g =>
      match Version.from_json (((g.get "QMP").get "version").get "qemu") with
      | none => .handshakePanic
      | some v => .proceed v

namespace QemuRs

/-- Observable output of `qemu_worker` (src/qemu.rs, lines 136-186):
`written` are the byte strings passed to `stdin.write_all` in order;
`events` the values sent on `event_tx` in order; `replies` the completions
`waiter.send(data["return"].clone())` as (slot id, payload) in order;
`errors` counts the `error!("Message reply without waiter")` diagnostics;
`failed` lists the slots whose oneshot sender is dropped when the loop
breaks (their `Process::write` call then observes `Err` and returns Eof). -/
structure Output where
  written : List String
  events : List Json
  replies : List (Nat × Json)
  errors : Nat
  failed : List Nat

/-- State of the `qemu_worker` multiplex loop: `pending` is `reply_waiter`
(the single outstanding completion slot, identified by a slot id), `inQ` the
commands queued on `reply_rx` (slot id and payload, in submission order),
`wire` the lines still to be read from the child stdout (already parsed;
`lines.next_line` returning `None` is the empty list). -/
structure WState where
  pending : Option Nat
  inQ : List (Nat × Json)
  wire : List Json
  out : Output

/-- One iteration of the `qemu_worker` loop body (the biased `select!`):
if no reply is outstanding and a command is queued, accept it, record it as
pending and write its serialization (note: `data.to_string()` with no
trailing newline) to the child stdin; otherwise read the next line: on
end-of-stream break out of the loop (dropping the pending waiter and the
queued senders, which fail with Eof at the caller); a line with a "return"
key completes the pending waiter with its "return" field, or is only a
logged diagnostic when no waiter exists; any other line is sent to the
event queue. -/
def wstep : WState → WState ⊕ Output
  | ⟨none, (id, data) :: inQ, wire, out⟩ =>
      Sum.inl ⟨some id, inQ, wire,
        { out with written := out.written ++ [Json.serialize data] }⟩
  | ⟨pending, inQ, [], out⟩ =>
      Sum.inr { out with
        failed := out.failed ++ pending.toList ++ inQ.map Prod.fst }
  | ⟨pending, inQ, line :: wire, out⟩ =>
      if line.hasKey "return" then
        match pending with
        | some id =>
            Sum.inl ⟨none, inQ, wire,
              { out with replies := out.replies ++ [(id, line.get "return")] }⟩
        | none =>
            Sum.inl ⟨pending, inQ, wire, { out with errors := out.errors + 1 }⟩
      else
        Sum.inl ⟨pending, inQ, wire, { out with events := out.events ++ [line] }⟩

/-- Loop measure: every iteration consumes a queued command or a wire line,
so the loop runs at most this many iterations before the wire is empty. -/
def fuelOf (s : WState) : Nat := s.wire.length + s.inQ.length + 1

/-- Iterated loop body, structurally recursive on the iteration bound. -/
def runFuel : Nat → WState → Output
  | 0, s => s.out
  | fuel + 1, s =>
      match wstep s with
      | .inr o => o
      | .inl s' => runFuel fuel s'

/-- The whole `qemu_worker` loop run to completion from a state. -/
def runFrom (s : WState) : Output := runFuel (fuelOf s) s

/-- Worker state at entry of the loop: no reply outstanding, the full
submission sequence queued, the full wire ahead, nothing output yet. -/
def initState (inQ : List (Nat × Json)) (wire : List Json) : WState :=
  ⟨none, inQ, wire, ⟨[], [], [], 0, []⟩⟩

/-- Client side of `Process::write` (src/qemu.rs, lines 104-114): the caller
awaits the oneshot receiver; a delivered reply is `Ok`, a dropped sender is
`Err(Eof)`. -/
def writeOutcome (o : Output) (id : Nat) : Except Eof Json :=
  match o.replies.lookup id with
  | some reply => .ok reply
  | none => .error .mk

/-- `ExitStatus::success`: true exactly for a clean zero exit. -/
def statusSuccess (code : Int) : Bool := code == 0

/-- `Process::finish` (src/qemu.rs, lines 125-133): awaits the worker for
the child exit status, logs an error line carrying the raw status when it
is unsuccessful, and returns unit to the caller. -/
def finish (code : Int) : Unit × List String :=
  if statusSuccess code then ((), [])
  else ((), ["Qemu: exited, exit status: " ++ toString code])

end QemuRs

namespace MainRs

/-- Bytes `Process::write` (src/main.rs, lines 101-108) sends for a command:
the serialization with a newline pushed. -/
def sentBytes (data : Json) : String := Json.serialize data ++ "\n"

/-- Read loop of `Process::write` (src/main.rs, lines 110-123): lines with
an "event" key are pushed onto the event cache; the first other line
resolves the call to its "return" field; end-of-stream is `Err(Eof)`.
Returns (events cached in order, result with the unread rest of the wire).  -/
def writeLoop : List Json → List Json × Except Eof (Json × List Json)
  | [] => ([], .error .mk)
  | line :: rest =>
      if line.hasKey "event" then
        let (cached, r) := writeLoop rest
        (line :: cached, r)
      else ([], .ok (line.get "return", rest))

/-- `Process::read_event` (src/main.rs, lines 126-141): pop the front of the
event cache if nonempty, otherwise read the next wire line; end-of-stream is
`Err(Eof)`. Returns the event with the remaining cache and wire. -/
def readEvent (cache : List Json) (wire : List Json) :
    Except Eof (Json × List Json × List Json) :=
  match cache with
  | v :: cache => .ok (v, cache, wire)
  | [] =>
      match wire with
      | [] => .error .mk
      | line :: rest => .ok (line, [], rest)

/-- `Process::finish` (src/main.rs, lines 143-152): awaits the child exit
status, logs an error line carrying the raw status when it is unsuccessful,
and returns unit to the caller. -/
def finish (code : Int) : Unit × List String :=
  if QemuRs.statusSuccess code then ((), [])
  else ((), ["Qemu: exit, exit status: " ++ toString code])

end MainRs

/-- Destination of an inbound post-handshake message: completion of the
pending command with a payload, or delivery on the event path. -/
inductive Route where
  | reply (payload : Json)
  | event (payload : Json)

/-- Routing in src/main.rs `Process::write` (lines 117-122): a line with an
"event" key goes to the event cache, any other line completes the call with
its "return" field. -/
def routeMain (j : Json) : Route :=
  if j.hasKey "event" then .event j else .reply (j.get "return")

/-- Routing in src/qemu.rs `qemu_worker` (lines 172-180): a line with a
"return" key completes the pending waiter with its "return" field, any
other line goes to the event queue. -/
def routeQemu (j : Json) : Route :=
  if j.hasKey "return" then .reply (j.get "return") else .event j

/-! ### Helper lemmas about the worker loop -/

namespace QemuRs

theorem runFuel_events (fuel : Nat) :
    ∀ s : WState, s.wire.length + s.inQ.length < fuel →
      (runFuel fuel s).events =
        s.out.events ++ s.wire.filter (fun l => !(l.hasKey "return")) := by
  induction fuel with
  | zero => intro s h; exact absurd h (Nat.not_lt_zero _)
  | succ fuel ih =>
    rintro ⟨p, q, w, out⟩ h
    cases p with
    | none =>
      cases q with
      | cons c q =>
        obtain ⟨id, data⟩ := c
        have hstep : wstep ⟨none, (id, data) :: q, w, out⟩ =
            Sum.inl ⟨some id, q, w,
              { out with written := out.written ++ [Json.serialize data] }⟩ := by
          simp [wstep]
        simp only [runFuel, hstep]
        rw [ih ⟨some id, q, w, _⟩ (by simp only [List.length_cons, List.length_nil] at h; simp; omega)]
      | nil =>
        cases w with
        | nil => simp [runFuel, wstep]
        | cons line w =>
          cases hk : line.hasKey "return" with
          | true =>
            have hstep : wstep ⟨none, [], line :: w, out⟩ =
                Sum.inl ⟨none, [], w, { out with errors := out.errors + 1 }⟩ := by
              simp [wstep, hk]
            simp only [runFuel, hstep]
            rw [ih ⟨none, [], w, _⟩ (by simp only [List.length_cons, List.length_nil] at h; simp; omega)]
            simp [hk]
          | false =>
            have hstep : wstep ⟨none, [], line :: w, out⟩ =
                Sum.inl ⟨none, [], w,
                  { out with events := out.events ++ [line] }⟩ := by
              simp [wstep, hk]
            simp only [runFuel, hstep]
            rw [ih ⟨none, [], w, _⟩ (by simp only [List.length_cons, List.length_nil] at h; simp; omega)]
            simp [hk]
    | some id =>
      cases w with
      | nil => simp [runFuel, wstep]
      | cons line w =>
        cases hk : line.hasKey "return" with
        | true =>
          have hstep : wstep ⟨some id, q, line :: w, out⟩ =
              Sum.inl ⟨none, q, w,
                { out with replies := out.replies ++ [(id, line.get "return")] }⟩ := by
            simp [wstep, hk]
          simp only [runFuel, hstep]
          rw [ih ⟨none, q, w, _⟩ (by simp only [List.length_cons, List.length_nil] at h; simp; omega)]
          simp [hk]
        | false =>
          have hstep : wstep ⟨some id, q, line :: w, out⟩ =
              Sum.inl ⟨some id, q, w,
                { out with events := out.events ++ [line] }⟩ := by
            simp [wstep, hk]
          simp only [runFuel, hstep]
          rw [ih ⟨some id, q, w, _⟩ (by simp only [List.length_cons, List.length_nil] at h; simp; omega)]
          simp [hk]

theorem runFuel_replies_order (fuel : Nat) :
    ∀ s : WState, s.wire.length + s.inQ.length < fuel →
      ∃ t, (runFuel fuel s).replies = s.out.replies ++ t ∧
        ∃ r, t.map Prod.fst ++ r = s.pending.toList ++ s.inQ.map Prod.fst := by
  induction fuel with
  | zero => intro s h; exact absurd h (Nat.not_lt_zero _)
  | succ fuel ih =>
    rintro ⟨p, q, w, out⟩ h
    cases p with
    | none =>
      cases q with
      | cons c q =>
        obtain ⟨id, data⟩ := c
        have hstep : wstep ⟨none, (id, data) :: q, w, out⟩ =
            Sum.inl ⟨some id, q, w,
              { out with written := out.written ++ [Json.serialize data] }⟩ := by
          simp [wstep]
        simp only [runFuel, hstep]
        obtain ⟨t, ht, r, hr⟩ :=
          ih ⟨some id, q, w,
            { out with written := out.written ++ [Json.serialize data] }⟩
            (by simp only [List.length_cons, List.length_nil] at h; simp; omega)
        exact ⟨t, ht, r, by simpa using hr⟩
      | nil =>
        cases w with
        | nil => exact ⟨[], by simp [runFuel, wstep], [], by simp⟩
        | cons line w =>
          cases hk : line.hasKey "return" with
          | true =>
            have hstep : wstep ⟨none, [], line :: w, out⟩ =
                Sum.inl ⟨none, [], w, { out with errors := out.errors + 1 }⟩ := by
              simp [wstep, hk]
            simp only [runFuel, hstep]
            obtain ⟨t, ht, r, hr⟩ :=
              ih ⟨none, [], w, { out with errors := out.errors + 1 }⟩
                (by simp only [List.length_cons, List.length_nil] at h; simp; omega)
            exact ⟨t, ht, r, by simpa using hr⟩
          | false =>
            have hstep : wstep ⟨none, [], line :: w, out⟩ =
                Sum.inl ⟨none, [], w,
                  { out with events := out.events ++ [line] }⟩ := by
              simp [wstep, hk]
            simp only [runFuel, hstep]
            obtain ⟨t, ht, r, hr⟩ :=
              ih ⟨none, [], w, { out with events := out.events ++ [line] }⟩
                (by simp only [List.length_cons, List.length_nil] at h; simp; omega)
            exact ⟨t, ht, r, by simpa using hr⟩
    | some id =>
      cases w with
      | nil => exact ⟨[], by simp [runFuel, wstep], id :: q.map Prod.fst, by simp⟩
      | cons line w =>
        cases hk : line.hasKey "return" with
        | true =>
          have hstep : wstep ⟨some id, q, line :: w, out⟩ =
              Sum.inl ⟨none, q, w,
                { out with replies := out.replies ++ [(id, line.get "return")] }⟩ := by
            simp [wstep, hk]
          simp only [runFuel, hstep]
          obtain ⟨t, ht, r, hr⟩ :=
            ih ⟨none, q, w,
              { out with replies := out.replies ++ [(id, line.get "return")] }⟩
              (by simp only [List.length_cons, List.length_nil] at h; simp; omega)
          refine ⟨(id, line.get "return") :: t, by simpa using ht, r, ?_⟩
          simpa using hr
        | false =>
          have hstep : wstep ⟨some id, q, line :: w, out⟩ =
              Sum.inl ⟨some id, q, w,
                { out with events := out.events ++ [line] }⟩ := by
            simp [wstep, hk]
          simp only [runFuel, hstep]
          obtain ⟨t, ht, r, hr⟩ :=
            ih ⟨some id, q, w, { out with events := out.events ++ [line] }⟩
              (by simp only [List.length_cons, List.length_nil] at h; simp; omega)
          exact ⟨t, ht, r, by simpa using hr⟩

theorem runFuel_reply_accounting (fuel : Nat) :
    ∀ s : WState, s.wire.length + s.inQ.length < fuel →
      (runFuel fuel s).replies.length + (runFuel fuel s).errors =
        s.out.replies.length + s.out.errors +
          (s.wire.filter (fun l => l.hasKey "return")).length := by
  induction fuel with
  | zero => intro s h; exact absurd h (Nat.not_lt_zero _)
  | succ fuel ih =>
    rintro ⟨p, q, w, out⟩ h
    cases p with
    | none =>
      cases q with
      | cons c q =>
        obtain ⟨id, data⟩ := c
        have hstep : wstep ⟨none, (id, data) :: q, w, out⟩ =
            Sum.inl ⟨some id, q, w,
              { out with written := out.written ++ [Json.serialize data] }⟩ := by
          simp [wstep]
        simp only [runFuel, hstep]
        rw [ih ⟨some id, q, w, _⟩ (by simp only [List.length_cons, List.length_nil] at h; simp; omega)]
      | nil =>
        cases w with
        | nil => simp [runFuel, wstep]
        | cons line w =>
          cases hk : line.hasKey "return" with
          | true =>
            have hstep : wstep ⟨none, [], line :: w, out⟩ =
                Sum.inl ⟨none, [], w, { out with errors := out.errors + 1 }⟩ := by
              simp [wstep, hk]
            simp only [runFuel, hstep]
            rw [ih ⟨none, [], w, _⟩ (by simp only [List.length_cons, List.length_nil] at h; simp; omega)]
            simp [hk]
            omega
          | false =>
            have hstep : wstep ⟨none, [], line :: w, out⟩ =
                Sum.inl ⟨none, [], w,
                  { out with events := out.events ++ [line] }⟩ := by
              simp [wstep, hk]
            simp only [runFuel, hstep]
            rw [ih ⟨none, [], w, _⟩ (by simp only [List.length_cons, List.length_nil] at h; simp; omega)]
            simp [hk]
    | some id =>
      cases w with
      | nil => simp [runFuel, wstep]
      | cons line w =>
        cases hk : line.hasKey "return" with
        | true =>
          have hstep : wstep ⟨some id, q, line :: w, out⟩ =
              Sum.inl ⟨none, q, w,
                { out with replies := out.replies ++ [(id, line.get "return")] }⟩ := by
            simp [wstep, hk]
          simp only [runFuel, hstep]
          rw [ih ⟨none, q, w, _⟩ (by simp only [List.length_cons, List.length_nil] at h; simp; omega)]
          simp [hk]
          omega
        | false =>
          have hstep : wstep ⟨some id, q, line :: w, out⟩ =
              Sum.inl ⟨some id, q, w,
                { out with events := out.events ++ [line] }⟩ := by
            simp [wstep, hk]
          simp only [runFuel, hstep]
          rw [ih ⟨some id, q, w, _⟩ (by simp only [List.length_cons, List.length_nil] at h; simp; omega)]
          simp [hk]

end QemuRs

namespace QemuRs

theorem wstep_decreases : ∀ s s2 : WState, wstep s = Sum.inl s2 →
    s2.wire.length + s2.inQ.length < s.wire.length + s.inQ.length := by
  rintro ⟨p, q, w, out⟩ s2 h
  cases p with
  | none =>
    cases q with
    | cons c q =>
      obtain ⟨id, data⟩ := c
      have hstep : wstep ⟨none, (id, data) :: q, w, out⟩ =
          Sum.inl ⟨some id, q, w,
            { out with written := out.written ++ [Json.serialize data] }⟩ := by
        simp [wstep]
      rw [hstep] at h
      obtain rfl := Sum.inl.inj h
      simp
    | nil =>
      cases w with
      | nil => simp [wstep] at h
      | cons line w =>
        cases hk : line.hasKey "return" with
        | true =>
          have hstep : wstep ⟨none, [], line :: w, out⟩ =
              Sum.inl ⟨none, [], w, { out with errors := out.errors + 1 }⟩ := by
            simp [wstep, hk]
          rw [hstep] at h
          obtain rfl := Sum.inl.inj h
          simp
        | false =>
          have hstep : wstep ⟨none, [], line :: w, out⟩ =
              Sum.inl ⟨none, [], w,
                { out with events := out.events ++ [line] }⟩ := by
            simp [wstep, hk]
          rw [hstep] at h
          obtain rfl := Sum.inl.inj h
          simp
  | some id =>
    cases w with
    | nil => simp [wstep] at h
    | cons line w =>
      cases hk : line.hasKey "return" with
      | true =>
        have hstep : wstep ⟨some id, q, line :: w, out⟩ =
            Sum.inl ⟨none, q, w,
              { out with replies := out.replies ++ [(id, line.get "return")] }⟩ := by
          simp [wstep, hk]
        rw [hstep] at h
        obtain rfl := Sum.inl.inj h
        simp
      | false =>
        have hstep : wstep ⟨some id, q, line :: w, out⟩ =
            Sum.inl ⟨some id, q, w,
              { out with events := out.events ++ [line] }⟩ := by
          simp [wstep, hk]
        rw [hstep] at h
        obtain rfl := Sum.inl.inj h
        simp

theorem runFuel_add (extra : Nat) (fuel : Nat) :
    ∀ s : WState, s.wire.length + s.inQ.length < fuel →
      runFuel (fuel + extra) s = runFuel fuel s := by
  induction fuel with
  | zero => intro s h; exact absurd h (Nat.not_lt_zero _)
  | succ fuel ih =>
    intro s h
    rw [show fuel + 1 + extra = fuel + extra + 1 from by omega]
    cases hs : wstep s with
    | inr o => simp only [runFuel, hs]
    | inl s2 =>
      simp only [runFuel, hs]
      exact ih s2 (by have := wstep_decreases s s2 hs; omega)

theorem runFuel_eq_runFrom (fuel : Nat) (s : WState)
    (h : s.wire.length + s.inQ.length < fuel) :
    runFuel fuel s = runFrom s := by
  rw [show fuel = fuelOf s + (fuel - fuelOf s) from by simp only [fuelOf]; omega,
    runFuel_add (fuel - fuelOf s) (fuelOf s) s (by simp only [fuelOf]; omega),
    runFrom]

theorem runFrom_inl (s s2 : WState) (h : wstep s = Sum.inl s2) :
    runFrom s = runFrom s2 := by
  have h1 : runFrom s = runFuel (s.wire.length + s.inQ.length) s2 := by
    rw [runFrom]
    simp only [fuelOf, runFuel, h]
  rw [h1]
  exact runFuel_eq_runFrom _ s2 (wstep_decreases s s2 h)

theorem runFrom_inr (s : WState) (o : Output) (h : wstep s = Sum.inr o) :
    runFrom s = o := by
  rw [runFrom]
  simp only [fuelOf, runFuel, h]

end QemuRs

theorem mainWriteLoop_cached (wire : List Json) :
    (MainRs.writeLoop wire).1 = wire.takeWhile (fun l => l.hasKey "event") := by
  induction wire with
  | nil => simp [MainRs.writeLoop]
  | cons line rest ih =>
    by_cases hk : line.hasKey "event"
    · simp [MainRs.writeLoop, hk, List.takeWhile, ih]
    · simp [MainRs.writeLoop, hk, List.takeWhile]

/-! ### Claims -/

/-- C1: at every point of the `qemu_worker` multiplex loop at most one
PendingCommand (reply slot) exists, and the engine does not accept a new
command from the client queue while one is outstanding: any loop iteration
leaves the slot count at most one, and an iteration starting with an
outstanding slot neither consumes the command queue nor writes a command
to the child. A command acceptance (the queue shrinking) can happen only
from a state with no outstanding slot, and makes the accepted slot pending. -/
theorem qemu_worker_single_pending_slot (s t : QemuRs.WState)
    (h : QemuRs.wstep s = Sum.inl t) :
    t.pending.toList.length ≤ 1 ∧
    (s.pending.isSome = true → t.inQ = s.inQ ∧ t.out.written = s.out.written) ∧
    (t.inQ ≠ s.inQ → s.pending = none ∧ t.pending.isSome = true) := by
  obtain ⟨p, q, w, out⟩ := s
  cases p with
  | none =>
    cases q with
    | cons c q =>
      obtain ⟨id, data⟩ := c
      have hstep : QemuRs.wstep ⟨none, (id, data) :: q, w, out⟩ =
          Sum.inl ⟨some id, q, w,
            { out with written := out.written ++ [Json.serialize data] }⟩ := by
        simp [QemuRs.wstep]
      rw [hstep] at h
      obtain rfl := Sum.inl.inj h
      exact ⟨by simp, by simp, fun _ => ⟨rfl, rfl⟩⟩
    | nil =>
      cases w with
      | nil => simp [QemuRs.wstep] at h
      | cons line w =>
        cases hk : line.hasKey "return" with
        | true =>
          have hstep : QemuRs.wstep ⟨none, [], line :: w, out⟩ =
              Sum.inl ⟨none, [], w, { out with errors := out.errors + 1 }⟩ := by
            simp [QemuRs.wstep, hk]
          rw [hstep] at h
          obtain rfl := Sum.inl.inj h
          exact ⟨by simp, by simp, fun hne => absurd rfl hne⟩
        | false =>
          have hstep : QemuRs.wstep ⟨none, [], line :: w, out⟩ =
              Sum.inl ⟨none, [], w,
                { out with events := out.events ++ [line] }⟩ := by
            simp [QemuRs.wstep, hk]
          rw [hstep] at h
          obtain rfl := Sum.inl.inj h
          exact ⟨by simp, by simp, fun hne => absurd rfl hne⟩
  | some id =>
    cases w with
    | nil => simp [QemuRs.wstep] at h
    | cons line w =>
      cases hk : line.hasKey "return" with
      | true =>
        have hstep : QemuRs.wstep ⟨some id, q, line :: w, out⟩ =
            Sum.inl ⟨none, q, w,
              { out with replies := out.replies ++ [(id, line.get "return")] }⟩ := by
          simp [QemuRs.wstep, hk]
        rw [hstep] at h
        obtain rfl := Sum.inl.inj h
        exact ⟨by simp, fun _ => ⟨rfl, rfl⟩, fun hne => absurd rfl hne⟩
      | false =>
        have hstep : QemuRs.wstep ⟨some id, q, line :: w, out⟩ =
            Sum.inl ⟨some id, q, w,
              { out with events := out.events ++ [line] }⟩ := by
          simp [QemuRs.wstep, hk]
        rw [hstep] at h
        obtain rfl := Sum.inl.inj h
        exact ⟨by simp, fun _ => ⟨rfl, rfl⟩, fun hne => absurd rfl hne⟩

/-- Witness for C1: a concrete iteration with an outstanding slot (id 3) and
a queued command receives an event line and leaves the queue and the
written bytes untouched. -/
theorem qemu_worker_single_pending_slot_witness :
    (some 3 : Option Nat).toList.length ≤ 1 ∧
    ([(0, Json.null)] : List (Nat × Json)) = [(0, Json.null)] ∧
    ([] : List String) = [] := by
  have h := qemu_worker_single_pending_slot
    ⟨some 3, [(0, Json.null)], [Json.null], ⟨[], [], [], 0, []⟩⟩
    ⟨some 3, [(0, Json.null)], [], ⟨[], [Json.null], [], 0, []⟩⟩ rfl
  exact ⟨h.1, (h.2.1 rfl).1, (h.2.1 rfl).2⟩

/-- C2: over any full run of the `qemu_worker` loop, replies are delivered
to callers one-to-one in command submission order (the delivered slot ids
are a prefix of the submitted slot ids), events are exactly the non-reply
lines in wire order, and completion slots are only ever fed from
reply-shaped ("return"-keyed) lines: replies plus reply-without-waiter
diagnostics account exactly for the "return"-keyed lines, so an event line
interleaved between dispatch and reply is never routed to the pending
command's slot. In the main.rs engine, the lines read while awaiting a
reply are cached as events exactly up to the first non-event line, in wire
order. -/
theorem multiplex_ordering_guarantees (inQ : List (Nat × Json)) (wire : List Json) :
    (QemuRs.runFrom (QemuRs.initState inQ wire)).events =
        wire.filter (fun l => !(l.hasKey "return")) ∧
    (∃ r, (QemuRs.runFrom (QemuRs.initState inQ wire)).replies.map Prod.fst ++ r =
        inQ.map Prod.fst) ∧
    (QemuRs.runFrom (QemuRs.initState inQ wire)).replies.length +
        (QemuRs.runFrom (QemuRs.initState inQ wire)).errors =
      (wire.filter (fun l => l.hasKey "return")).length ∧
    (MainRs.writeLoop wire).1 = wire.takeWhile (fun l => l.hasKey "event") := by
  have hm : (QemuRs.initState inQ wire).wire.length +
      (QemuRs.initState inQ wire).inQ.length <
      QemuRs.fuelOf (QemuRs.initState inQ wire) := by
    simp only [QemuRs.fuelOf]
    omega
  refine ⟨?_, ?_, ?_, mainWriteLoop_cached wire⟩
  · have h := QemuRs.runFuel_events (QemuRs.fuelOf (QemuRs.initState inQ wire))
      (QemuRs.initState inQ wire) hm
    simpa [QemuRs.runFrom, QemuRs.initState] using h
  · obtain ⟨t, ht, r, hr⟩ :=
      QemuRs.runFuel_replies_order (QemuRs.fuelOf (QemuRs.initState inQ wire))
        (QemuRs.initState inQ wire) hm
    refine ⟨r, ?_⟩
    have hrep : (QemuRs.runFrom (QemuRs.initState inQ wire)).replies = t := by
      simpa [QemuRs.runFrom, QemuRs.initState] using ht
    rw [hrep]
    simpa [QemuRs.initState] using hr
  · have h := QemuRs.runFuel_reply_accounting
      (QemuRs.fuelOf (QemuRs.initState inQ wire)) (QemuRs.initState inQ wire) hm
    simpa [QemuRs.runFrom, QemuRs.initState] using h

/-- C3: when the wire reaches end-of-stream while a command is outstanding,
the loop terminates (it does not keep waiting: `runFrom` is a total
function and takes the break branch at once), the outstanding slot is
dropped into `failed`, and the caller's `Process::write` resolves to the
channel-closed error `Eof` rather than a reply. -/
theorem eof_fails_pending_with_channel_closed
    (s : QemuRs.WState) (id : Nat)
    (hp : s.pending = some id) (hw : s.wire = [])
    (hr : s.out.replies.lookup id = none) :
    QemuRs.runFrom s =
      { s.out with failed := s.out.failed ++ [id] ++ s.inQ.map Prod.fst } ∧
    QemuRs.writeOutcome (QemuRs.runFrom s) id = Except.error Eof.mk := by
  obtain ⟨p, q, w, out⟩ := s
  obtain rfl : p = some id := hp
  obtain rfl : w = ([] : List Json) := hw
  have h1 : QemuRs.runFrom ⟨some id, q, [], out⟩ =
      { out with failed := out.failed ++ [id] ++ q.map Prod.fst } :=
    QemuRs.runFrom_inr _ _ (by simp [QemuRs.wstep])
  refine ⟨h1, ?_⟩
  rw [h1]
  simp only [QemuRs.writeOutcome]
  rw [show ({ out with failed := out.failed ++ [id] ++ q.map Prod.fst } :
      QemuRs.Output).replies = out.replies from rfl, hr]

/-- Witness for C3: end-of-stream with slot 7 outstanding fails that
command with Eof. -/
theorem eof_fails_pending_witness :
    QemuRs.runFrom ⟨some 7, [], [], ⟨[], [], [], 0, []⟩⟩ =
      ⟨[], [], [], 0, [7]⟩ ∧
    QemuRs.writeOutcome
        (QemuRs.runFrom ⟨some 7, [], [], ⟨[], [], [], 0, []⟩⟩) 7 =
      Except.error Eof.mk := by
  have h := eof_fails_pending_with_channel_closed
    ⟨some 7, [], [], ⟨[], [], [], 0, []⟩⟩ 7 rfl rfl rfl
  exact ⟨by simpa using h.1, h.2⟩

/-- C4 (code bug in src/qemu.rs): the worker engine writes an accepted
command to the child stdin as `data.to_string()` with no trailing newline:
submitting the capability command makes it write exactly the serialized
object, which does not end in a newline character — while the main.rs
engine pushes the newline (`msg.push('\n')`), as the line-delimited
protocol requires. -/
theorem qemu_worker_write_missing_newline :
    (QemuRs.runFrom (QemuRs.initState
        [(0, Json.obj [("execute", Json.str "qmp_capabilities")])] [])).written =
      ["\x7b\"execute\":\"qmp_capabilities\"\x7d"] ∧
    ("\x7b\"execute\":\"qmp_capabilities\"\x7d").data.getLast? ≠ some '\n' ∧
    MainRs.sentBytes (Json.obj [("execute", Json.str "qmp_capabilities")]) =
      "\x7b\"execute\":\"qmp_capabilities\"\x7d" ++ "\n" ∧
    ("\x7b\"execute\":\"qmp_capabilities\"\x7d" ++ "\n").data.getLast? =
      some '\n' := by
  exact ⟨rfl, by decide, rfl, by decide⟩

/-- C5: a submitted command answered by a reply line resolves to exactly
the value of the reply's "return" payload field, in both engines: in the
worker engine the completion slot receives `data["return"].clone()` and
`Process::write` returns it; in the main.rs engine the first non-event
line resolves the call to its "return" field. -/
theorem submit_resolves_to_return_payload :
    (∀ (id : Nat) (cmd line : Json), line.hasKey "return" = true →
      QemuRs.writeOutcome
          (QemuRs.runFrom (QemuRs.initState [(id, cmd)] [line])) id =
        Except.ok (line.get "return")) ∧
    (∀ (line : Json) (rest : List Json), line.hasKey "event" = false →
      (MainRs.writeLoop (line :: rest)).2 = Except.ok (line.get "return", rest)) := by
  constructor
  · intro id cmd line hk
    have h0 : QemuRs.runFrom (QemuRs.initState [(id, cmd)] [line]) =
        QemuRs.runFrom ⟨some id, [], [line], ⟨[Json.serialize cmd], [], [], 0, []⟩⟩ :=
      QemuRs.runFrom_inl _ _ (by simp [QemuRs.initState, QemuRs.wstep])
    have h1 : QemuRs.runFrom
          (⟨some id, [], [line], ⟨[Json.serialize cmd], [], [], 0, []⟩⟩ :
            QemuRs.WState) =
        QemuRs.runFrom ⟨none, [], [],
          ⟨[Json.serialize cmd], [], [(id, line.get "return")], 0, []⟩⟩ :=
      QemuRs.runFrom_inl _ _ (by simp [QemuRs.wstep, hk])
    have h2 : QemuRs.runFrom
          (⟨none, [], [],
            ⟨[Json.serialize cmd], [], [(id, line.get "return")], 0, []⟩⟩ :
            QemuRs.WState) =
        ⟨[Json.serialize cmd], [], [(id, line.get "return")], 0, []⟩ :=
      QemuRs.runFrom_inr _ _ (by simp [QemuRs.wstep])
    rw [h0, h1, h2]
    simp [QemuRs.writeOutcome, List.lookup]
  · intro line rest hk
    simp [MainRs.writeLoop, hk]

/-- Witness for C5, the spec scenario: submitting
`{"execute":"query-status"}` against the reply
`{"return":{"status":"prelaunch"}}` resolves to `{"status":"prelaunch"}`
exactly, in both engines. -/
theorem submit_resolves_witness :
    QemuRs.writeOutcome
        (QemuRs.runFrom (QemuRs.initState
          [(0, Json.obj [("execute", Json.str "query-status")])]
          [Json.obj [("return", Json.obj [("status", Json.str "prelaunch")])]])) 0 =
      Except.ok (Json.obj [("status", Json.str "prelaunch")]) ∧
    (MainRs.writeLoop
        [Json.obj [("return", Json.obj [("status", Json.str "prelaunch")])]]).2 =
      Except.ok (Json.obj [("status", Json.str "prelaunch")], []) := by
  exact ⟨submit_resolves_to_return_payload.1 0
      (Json.obj [("execute", Json.str "query-status")])
      (Json.obj [("return", Json.obj [("status", Json.str "prelaunch")])]) rfl,
    submit_resolves_to_return_payload.2
      (Json.obj [("return", Json.obj [("status", Json.str "prelaunch")])]) [] rfl⟩

/-- C6 (counterexample): the inbound line `{"foo":1}` matches none of the
documented shapes — it has no "return" (reply) key and no "event", "name"
or "kind" (event) key — yet the worker engine routes it to the event queue
and raises no protocol-error diagnostic (`errors = 0`), instead of treating
it as a protocol error. -/
theorem unmatched_shape_routed_as_event_cex :
    Json.hasKey (Json.obj [("foo", Json.num 1)]) "return" = false ∧
    Json.hasKey (Json.obj [("foo", Json.num 1)]) "event" = false ∧
    Json.hasKey (Json.obj [("foo", Json.num 1)]) "name" = false ∧
    Json.hasKey (Json.obj [("foo", Json.num 1)]) "kind" = false ∧
    QemuRs.runFrom (QemuRs.initState [] [Json.obj [("foo", Json.num 1)]]) =
      ⟨[], [Json.obj [("foo", Json.num 1)]], [], 0, []⟩ := by
  exact ⟨rfl, rfl, rfl, rfl, rfl⟩

/-- C6 (amended): classification of inbound post-handshake lines in the
worker engine is total and mutually exclusive, but it is by presence of
the "return" key alone: a line with a "return" key is a Reply, any other
line is routed as an Event — so a line matching neither the reply nor the
event shape is delivered as an event rather than being treated as a
protocol error. -/
theorem classification_by_return_key (j : Json) :
    (j.hasKey "return" = true → routeQemu j = Route.reply (j.get "return")) ∧
    (j.hasKey "return" = false → routeQemu j = Route.event j) ∧
    ¬(Route.reply (j.get "return") = Route.event j) := by
  refine ⟨fun hk => by simp [routeQemu, hk], fun hk => by simp [routeQemu, hk],
    fun h => Route.noConfusion h⟩

/-- Witness for C6 (amended): a reply-shaped line is classified as a reply,
and the shapeless line `{"foo":1}` is routed as an event. -/
theorem classification_by_return_key_witness :
    routeQemu (Json.obj [("return", Json.null)]) = Route.reply Json.null ∧
    routeQemu (Json.obj [("foo", Json.num 1)]) =
      Route.event (Json.obj [("foo", Json.num 1)]) :=
  ⟨(classification_by_return_key (Json.obj [("return", Json.null)])).1 rfl,
    (classification_by_return_key (Json.obj [("foo", Json.num 1)])).2.1 rfl⟩

/-- C7: the Greeting's major, minor and micro fields are each validated by
`as_u8` as present and within unsigned 8-bit range — `as_u8` succeeds
exactly on an integer in [0, 255] — and `Version::from_json` fails exactly
when one of the three fields fails that validation, in which case the
`unwrap` aborts `Process::init` fatally during the handshake. -/
theorem greeting_version_validated_u8 (g : Json) :
    (Version.from_json g = none ↔
      ((g.get "major").as_u8 = none ∨ (g.get "minor").as_u8 = none ∨
        (g.get "micro").as_u8 = none)) ∧
    (∀ j : Json, j.as_u8 = none ↔ ¬∃ n : Int, j = Json.num n ∧ 0 ≤ n ∧ n ≤ 255) ∧
    (Version.from_json (((g.get "QMP").get "version").get "qemu") = none →
      initGreeting (some g) = InitOutcome.handshakePanic) := by
  refine ⟨?_, ?_, ?_⟩
  · unfold Version.from_json
    rcases ha : (g.get "major").as_u8 with _ | a <;>
      rcases hb : (g.get "minor").as_u8 with _ | b <;>
        rcases hc : (g.get "micro").as_u8 with _ | c <;> simp
  · intro j
    cases j with
    | num n =>
      by_cases hn : (0 : Int) ≤ n ∧ n ≤ 255 <;> simp [Json.as_u8, hn]
    | null => simp [Json.as_u8]
    | bool b => simp [Json.as_u8]
    | str s => simp [Json.as_u8]
    | arr elems => simp [Json.as_u8]
    | obj fields => simp [Json.as_u8]
  · intro h
    simp [initGreeting, h]

/-- Witness for C7: a greeting with no version object at all (Null) makes
the handshake fail fatally. -/
theorem greeting_version_validated_witness :
    initGreeting (some Json.null) = InitOutcome.handshakePanic :=
  (greeting_version_validated_u8 Json.null).2.2 rfl

/-- C8: a "return"-keyed line arriving while no command is outstanding (and
none is queued to be accepted first) makes the worker log the
reply-without-waiter diagnostic (`errors` grows by one) and continue the
loop (the step yields a successor state, not loop exit), with the queue,
wire position advanced by one line, and all other outputs unchanged. -/
theorem reply_without_waiter_is_diagnostic_and_continues
    (s : QemuRs.WState) (line : Json) (rest : List Json)
    (hp : s.pending = none) (hq : s.inQ = []) (hw : s.wire = line :: rest)
    (hk : line.hasKey "return" = true) :
    QemuRs.wstep s =
      Sum.inl ⟨none, [], rest, { s.out with errors := s.out.errors + 1 }⟩ := by
  obtain ⟨p, q, w, out⟩ := s
  obtain rfl : p = none := hp
  obtain rfl : q = ([] : List (Nat × Json)) := hq
  obtain rfl : w = line :: rest := hw
  simp [QemuRs.wstep, hk]

/-- Witness for C8: a concrete stray reply line is counted as a diagnostic
and the loop continues. -/
theorem reply_without_waiter_witness :
    QemuRs.wstep ⟨none, [], [Json.obj [("return", Json.null)]],
        ⟨[], [], [], 0, []⟩⟩ =
      Sum.inl ⟨none, [], [], ⟨[], [], [], 1, []⟩⟩ := by
  have h := reply_without_waiter_is_diagnostic_and_continues
    ⟨none, [], [Json.obj [("return", Json.null)]], ⟨[], [], [], 0, []⟩⟩
    (Json.obj [("return", Json.null)]) [] rfl rfl rfl rfl
  simpa using h

/-- C9 (counterexample): the exit status is classified — status 1 is
unsuccessful and is reported in the error log with the raw code — but
`finish` in both engines returns unit, so the caller-visible result of a
failing exit (status 1) is indistinguishable from that of a clean exit
(status 0): the raw status code is not retrievable by the caller, only
logged. -/
theorem exit_status_not_returned_to_caller_cex :
    (QemuRs.finish 1).1 = (QemuRs.finish 0).1 ∧
    (MainRs.finish 1).1 = (MainRs.finish 0).1 ∧
    QemuRs.statusSuccess 1 = false ∧
    (QemuRs.finish 1).2 = ["Qemu: exited, exit status: 1"] := by
  exact ⟨rfl, rfl, rfl, by decide⟩

/-- C9 (amended): after the channel closes, the child's exit status is
obtained and classified: status 0 is a Success (nothing is reported) and a
non-zero status is a Failure whose raw code is carried in the error log
line that `finish` emits; `finish` returns unit, so the raw status is not
programmatically retrievable by the caller beyond that log line. -/
theorem exit_status_classified_and_logged (code : Int) :
    (QemuRs.statusSuccess code = true ↔ code = 0) ∧
    QemuRs.finish code =
      ((), if QemuRs.statusSuccess code then []
        else ["Qemu: exited, exit status: " ++ toString code]) ∧
    MainRs.finish code =
      ((), if QemuRs.statusSuccess code then []
        else ["Qemu: exit, exit status: " ++ toString code]) := by
  refine ⟨?_, ?_, ?_⟩
  · simp [QemuRs.statusSuccess]
  · by_cases h : QemuRs.statusSuccess code <;> simp [QemuRs.finish, h]
  · by_cases h : QemuRs.statusSuccess code <;> simp [MainRs.finish, h]

/-- Witness for C9 (amended): status 0 is classified successful; status 1
produces the failure log line carrying the raw code. -/
theorem exit_status_classified_witness :
    QemuRs.statusSuccess 0 = true ∧
    MainRs.finish 1 = ((), ["Qemu: exit, exit status: 1"]) := by
  refine ⟨(exit_status_classified_and_logged 0).1.mpr rfl, ?_⟩
  have h := (exit_status_classified_and_logged 1).2.2
  simpa [QemuRs.statusSuccess] using h

/-- C10 (counterexample): the two engines do not route every message to the
same destination: the line `{"foo":1}` (no "event" key, no "return" key)
completes the pending command with a Null payload in the main.rs engine,
but is delivered as an event by the qemu.rs worker engine. -/
theorem route_disagreement_cex :
    routeMain (Json.obj [("foo", Json.num 1)]) = Route.reply Json.null ∧
    routeQemu (Json.obj [("foo", Json.num 1)]) =
      Route.event (Json.obj [("foo", Json.num 1)]) ∧
    routeMain (Json.obj [("foo", Json.num 1)]) ≠
      routeQemu (Json.obj [("foo", Json.num 1)]) := by
  refine ⟨rfl, rfl, fun h => ?_⟩
  rw [show routeMain (Json.obj [("foo", Json.num 1)]) =
      Route.reply Json.null from rfl,
    show routeQemu (Json.obj [("foo", Json.num 1)]) =
      Route.event (Json.obj [("foo", Json.num 1)]) from rfl] at h
  exact Route.noConfusion h

/-- C10 (amended): the inline engine routes by the "event" key, the worker
engine by the "return" key; the two routings agree exactly on the messages
whose "event"-key presence coincides with "return"-key absence — in
particular on all well-formed replies and well-formed events — and
disagree on messages carrying neither or both keys. -/
theorem routing_agreement_condition (j : Json) :
    routeMain j = routeQemu j ↔ j.hasKey "event" = !j.hasKey "return" := by
  unfold routeMain routeQemu
  cases he : j.hasKey "event" <;> cases hr : j.hasKey "return" <;> simp [he, hr]

/-- Witness for C10 (amended): the engines agree on a well-formed event
line and on a well-formed reply line. -/
theorem routing_agreement_witness :
    routeMain (Json.obj [("event", Json.str "STOP")]) =
      routeQemu (Json.obj [("event", Json.str "STOP")]) ∧
    routeMain (Json.obj [("return", Json.null)]) =
      routeQemu (Json.obj [("return", Json.null)]) :=
  ⟨(routing_agreement_condition (Json.obj [("event", Json.str "STOP")])).mpr rfl,
    (routing_agreement_condition (Json.obj [("return", Json.null)])).mpr rfl⟩

end RunVM
